import Mathlib

/-!
Shallow embedding of the ds-dashboard collector pipeline.

The TypeScript sources embedded here:
* `src/collector/src/utils/dws-api.ts` — `getAutomatedTestListForTestQueue`
  (failure-detail / screenshot enrichment pass);
* `src/unnamed/part_016` (`utils/file-utils.ts`) — `FileUtils.readLines`,
  `FileUtils.appendToFirstLine`, `FileUtils.doesFileContain`;
* `src/unnamed/part_014` (`dws-test-results-collector.spec.ts`) —
  `searchIssuesByTestNames`, `enrichTestResultsWithJiraKeys`,
  `saveAutomatedTestList`, `processAutomatedQueues`;
* `src/collector/src/tests/dws-queue-results-collector.spec.ts` —
  `formatDuration`, `calculateQueueSummary`, `saveQueueSummary`.

External collaborators (DWS HTTP endpoints, the Jira search endpoint, the
image download, the `date-fns`/`sanitize-filename` libraries, the wall
clock) are passed in as explicit function parameters; file contents are
plain strings and file-system side effects are made explicit (state
records or effect traces).

JavaScript string primitives (`split` on a one-character separator,
`join("\n")`, `includes`, `toUpperCase`/`toLocaleLowerCase` on ASCII data,
`padStart(2, "0")`, `replaceAll`) are re-implemented on `Char` lists so
that every proof can compute.
-/

namespace DsDashboard

/-- JS `String.prototype.split` with a one-character separator, on char
lists: `split("")` of the empty string is `[""]`, and a trailing separator
yields a trailing empty piece, exactly as in JavaScript. -/
def splitCharList (sep : Char) : List Char → List (List Char)
  | [] => [[]]
  | c :: cs =>
    if c = sep then [] :: splitCharList sep cs
    else
      match splitCharList sep cs with
      | [] => [[c]]
      | piece :: rest => (c :: piece) :: rest

/-- JS `s.split(sep)` for a one-character separator `sep`. -/
def jsSplit (sep : Char) (s : String) : List String :=
  (splitCharList sep s.data).map String.mk

/-- JS `lines.join("\n")` on char lists. -/
def joinNlCharList : List (List Char) → List Char
  | [] => []
  | [l] => l
  | l :: ls => l ++ '\n' :: joinNlCharList ls

/-- JS `lines.join("\n")`. -/
def joinNl (ls : List String) : String :=
  String.mk (joinNlCharList (ls.map String.data))

/-- JS `line.includes(s)`: substring containment. -/
def jsIncludes (line s : String) : Bool :=
  line.data.tails.any (fun t => s.data.isPrefixOf t)

/-- JS `s.toLocaleLowerCase()` restricted to ASCII data. -/
def jsToLower (s : String) : String :=
  String.mk (s.data.map Char.toLower)

/-- JS `s.toUpperCase()` restricted to ASCII data. -/
def jsToUpper (s : String) : String :=
  String.mk (s.data.map Char.toUpper)

/-- JS `s.padStart(2, "0")`. -/
def padStart2 (s : String) : String :=
  if s.length ≥ 2 then s else String.mk (List.replicate (2 - s.length) '0' ++ s.data)

/-- Node `path.join` restricted to two already-clean segments. -/
def pathJoin (a b : String) : String := a ++ "/" ++ b

/-! ### `FileUtils` (src/unnamed/part_016)

File contents are modeled as the string a read would return; a missing
file is `none` at the call sites that check existence first. -/

namespace FileUtils

/-- `FileUtils.readLines`: `data.split("\n")`. -/
def readLines (data : String) : List String := jsSplit '\n' data

/-- `FileUtils.appendToFirstLine`: reads the file, splits into lines,
replaces line 0 by `lines[0] + "\n" + content`, joins with `"\n"` and
writes the result back. (The `lines.length === 0` branch of the source is
unreachable because JS `split` never returns an empty array; it is kept
here for fidelity.) -/
def appendToFirstLine (data content : String) : String :=
  match readLines data with
  | [] => content
  | l0 :: rest => joinNl ((l0 ++ "\n" ++ content) :: rest)

/-- `FileUtils.doesFileContain`: `false` for a missing file, otherwise
whether some line `includes` the search string. -/
def doesFileContain (file : Option String) (searchString : String) : Bool :=
  match file with
  | none => false
  | some data => (readLines data).any (fun line => jsIncludes line searchString)

end FileUtils

/-! ### Data model (`utils/dws-test-result.ts`)

`cJiraKey` is `string | null` and may also be absent before enrichment, so
it is `Option (Option String)` (`none` = not yet looked up, `some none` =
looked up, not found).  The raw `key` field used by the enrichment pass is
untyped in the source (`(test as any).key`); JS truthiness of a string is
"non-empty", so a missing key and an empty key are both modeled as `""`. -/

structure TestResult where
  testName : String
  scenarioName : String
  duration : String
  successful : String
  executionStatus : String
  executionStartTimeStamp : String
  key : String
  cErrorTitle : Option String := none
  cErrorDescription : Option String := none
  cImageUrl : Option String := none
  cJiraKey : Option (Option String) := none
deriving Repr, DecidableEq

/-- The fields of a DWS history step used by the enrichment pass
(`HistoryDetailItem` in `utils/dws-api.ts`; `key` doubles as the
screenshot URL of a failed step). -/
structure HistoryDetailItem where
  title : String
  description : String
  key : String
  executionStatus : String
  successful : String
deriving Repr, DecidableEq

/-- `SuccessfulStatus.fail` from `utils/dws-test-result.ts`. -/
def failStatusConstant : String := "FAIL"

/-- `ExecutionStatus.disabled` from `utils/dws-test-result.ts`. -/
def disabledStatusConstant : String := "Disabled"

/-- `x.toLocaleLowerCase() === SuccessfulStatus.fail.toLocaleLowerCase()`,
the outcome test used both for records and for history steps. -/
def isFailOutcome (s : String) : Bool :=
  jsToLower s == jsToLower failStatusConstant

/-! ### `DwsApi.getAutomatedTestListForTestQueue` enrichment pass
(`src/collector/src/utils/dws-api.ts`, lines 273–320)

External effects appear as parameters: `fetchHistory` is
`getHistoryDetail` (it can throw), `downloadOk` tells whether
`FileUtils.downloadImage` succeeds for a given URL, and `now` is
`Date.now()`. -/

/-- `test.testName.replaceAll(/[^a-z0-9]/gi, "_").substring(0, 50)`. -/
def sanitizeScreenshotName (name : String) : String :=
  String.mk ((name.data.map (fun c => if c.isAlphanum then c else '_')).take 50)

/-- Body of the per-failed-test enrichment closure: fetch the history
detail, find the first failed non-disabled step, copy its title and
description, and record the screenshot (local path on a successful
download, the raw URL otherwise).  A fetch error leaves the record
untouched (the source catches and logs it). -/
def enrichFailedTest (fetchHistory : String → Except Unit (List HistoryDetailItem))
    (downloadOk : String → Bool) (now : Nat) (test : TestResult) : TestResult :=
  match fetchHistory test.key with
  | .error _ => test
  | .ok historyDetails =>
    match historyDetails.find? (fun item =>
        isFailOutcome item.successful && item.executionStatus != disabledStatusConstant) with
    | none => test
    | some firstFailedDetail =>
      let test := { test with
        cErrorTitle := some firstFailedDetail.title,
        cErrorDescription := some firstFailedDetail.description }
      if firstFailedDetail.key ≠ "" then
        let imageUrl := firstFailedDetail.key
        let screenshotFileName := sanitizeScreenshotName test.testName ++ "_" ++ toString now ++ ".png"
        if downloadOk imageUrl then
          { test with cImageUrl := some ("screenshots/" ++ screenshotFileName) }
        else
          { test with cImageUrl := some imageUrl }
      else test

/-- The enrichment pass of `getAutomatedTestListForTestQueue` with
`downloadScreenshots` enabled: records whose `successful` is `"FAIL"`
(case-insensitively) and whose raw `key` is truthy are enriched in place;
all other records pass through unchanged. -/
def getAutomatedTestListEnrichment (fetchHistory : String → Except Unit (List HistoryDetailItem))
    (downloadOk : String → Bool) (now : Nat) (records : List TestResult) : List TestResult :=
  records.map (fun test =>
    if isFailOutcome test.successful && test.key ≠ "" then
      enrichFailedTest fetchHistory downloadOk now test
    else test)

/-- All three failure fields populated. -/
def hasAllFailureFields (t : TestResult) : Prop :=
  t.cErrorTitle.isSome ∧ t.cErrorDescription.isSome ∧ t.cImageUrl.isSome

instance (t : TestResult) : Decidable (hasAllFailureFields t) := by
  unfold hasAllFailureFields; infer_instance

/-- All three failure fields absent. -/
def hasNoFailureFields (t : TestResult) : Prop :=
  t.cErrorTitle = none ∧ t.cErrorDescription = none ∧ t.cImageUrl = none

instance (t : TestResult) : Decidable (hasNoFailureFields t) := by
  unfold hasNoFailureFields; infer_instance

/-! ### Jira lookup cache and `searchIssuesByTestNames`
(`src/unnamed/part_014`, lines 161–226)

A JS `Map<string, string | null>` is an insertion-ordered association
list; `set` overwrites in place when the key exists and appends
otherwise.  The Jira search endpoint is a parameter
`searchIssues : jql ↦ Except Unit (List String)` returning the keys of
the matching issues (or a thrown error).  The source issues the uncached
names in batches of five concurrent queries; each query touches only its
own name's entry and queries are deterministic per name, so the final
maps equal those of this sequential fold. -/

abbrev JiraCache := List (String × Option String)

/-- JS `cache.has(k)`. -/
def cacheHas (cache : JiraCache) (k : String) : Bool :=
  cache.any (fun p => p.1 == k)

/-- JS `cache.get(k)` (`none` plays `undefined`). -/
def cacheGet (cache : JiraCache) (k : String) : Option (Option String) :=
  (cache.find? (fun p => p.1 == k)).map (fun p => p.2)

/-- JS `cache.set(k, v)`: overwrite the key's entry in place when
present, append a new entry otherwise. -/
def cacheSet (cache : JiraCache) (k : String) (v : Option String) : JiraCache :=
  match cache with
  | [] => [(k, v)]
  | p :: ps => if p.1 == k then (k, v) :: ps else p :: cacheSet ps k v

/-- `testName.replaceAll(double-quote, backslash double-quote)`. -/
def escapeJqlQuotes (testName : String) : String :=
  String.mk (testName.data.flatMap (fun c => if c = '"' then ['\\', '"'] else [c]))

/-- The JQL string built for one test name. -/
def buildJql (jiraProject testName : String) : String :=
  "project = " ++ jiraProject ++ " AND summary ~ \"" ++ escapeJqlQuotes testName ++ "\""

/-- Result of one `searchIssuesByTestNames` call: the returned map, the
updated cache, and the names for which a Jira search query was issued. -/
structure SearchRunResult where
  results : JiraCache
  cache : JiraCache
  searched : List String
deriving Repr, DecidableEq

/-- First phase of `searchIssuesByTestNames`: check the cache for each
test name; hits go into `results`, misses into `uncachedTestNames`.
(The source's `cachedValue === undefined ? null : cachedValue` coalesce
is unreachable when `has` holds, so a hit stores the cached value.) -/
def checkCacheLoop (cache : JiraCache) :
    List String → JiraCache → List String → JiraCache × List String
  | [], results, uncached => (results, uncached)
  | testName :: rest, results, uncached =>
    match cacheGet cache testName with
    | some cachedValue => checkCacheLoop cache rest (cacheSet results testName cachedValue) uncached
    | none => checkCacheLoop cache rest results (uncached ++ [testName])

/-- Second phase of `searchIssuesByTestNames`: query Jira for each
uncached name.  ≥1 issues caches and returns the first issue's key; zero
issues caches and returns `null`; a thrown query error is caught and
caches `null`.  Every name in the list is queried. -/
def searchLoop (searchIssues : String → Except Unit (List String)) (jiraProject : String) :
    List String → JiraCache → JiraCache → List String → SearchRunResult
  | [], results, cache, searched => ⟨results, cache, searched⟩
  | testName :: rest, results, cache, searched =>
    match searchIssues (buildJql jiraProject testName) with
    | .ok (issueKey :: _) =>
      searchLoop searchIssues jiraProject rest (cacheSet results testName (some issueKey))
        (cacheSet cache testName (some issueKey)) (searched ++ [testName])
    | .ok [] =>
      searchLoop searchIssues jiraProject rest (cacheSet results testName none)
        (cacheSet cache testName none) (searched ++ [testName])
    | .error _ =>
      searchLoop searchIssues jiraProject rest (cacheSet results testName none)
        (cacheSet cache testName none) (searched ++ [testName])

/-- `searchIssuesByTestNames`: cache check, then batched Jira queries for
the misses (the `uncachedTestNames.length === 0` early return is the nil
case of `searchLoop`). -/
def searchIssuesByTestNames (searchIssues : String → Except Unit (List String))
    (jiraProject : String) (testNames : List String) (cache : JiraCache) : SearchRunResult :=
  let checked := checkCacheLoop cache testNames [] []
  searchLoop searchIssues jiraProject checked.2 checked.1 cache []

/-- The value a Jira query for `testName` caches and returns. -/
def searchResultValue (searchIssues : String → Except Unit (List String))
    (jiraProject testName : String) : Option String :=
  match searchIssues (buildJql jiraProject testName) with
  | .ok (issueKey :: _) => some issueKey
  | .ok [] => none
  | .error _ => none

/-! ### `enrichTestResultsWithJiraKeys` (`src/unnamed/part_014`, lines 252–286) -/

/-- JS `[...new Set(xs)]`: first-occurrence-order deduplication. -/
def jsDedup (xs : List String) : List String :=
  xs.foldl (fun acc x => if x ∈ acc then acc else acc ++ [x]) []

/-- JS `jiraResults.get(name) || null`: an absent entry, a `null` entry
and an empty-string key are all falsy and collapse to `null`. -/
def jsOrNull : Option (Option String) → Option String
  | some (some issueKey) => if issueKey = "" then none else some issueKey
  | some none => none
  | none => none

/-- `enrichTestResultsWithJiraKeys` (happy path; the outer catch only
fires on unexpected failures of the modeled-total steps): resolve the
distinct test names of the whole batch through the cache, set `cJiraKey`
on every record, and return the updated cache (which
`saveJiraMappingCache` then persists wholesale). -/
def enrichTestResultsWithJiraKeys (searchIssues : String → Except Unit (List String))
    (jiraProject : String) (cache : JiraCache) (records : List TestResult) :
    List TestResult × JiraCache :=
  let testNames := jsDedup (records.map (fun test => test.testName))
  let jiraResults := searchIssuesByTestNames searchIssues jiraProject testNames cache
  (records.map (fun testResult =>
     { testResult with cJiraKey := some (jsOrNull (cacheGet jiraResults.results testResult.testName)) }),
   jiraResults.cache)

/-! ### `processAutomatedQueues` and `saveAutomatedTestList`
(`src/unnamed/part_014`, lines 326–429)

The tracker file `reports/<storeStatusFile>` is `none` while missing,
`some content` once present.  `fetchedKeys` records the executions for
which `getAutomatedTestListForTestQueue` was called, `writtenReports`
those whose report JSON was written, both in order.  The Jira enrichment
between fetch and save touches neither the tracker nor these lists and is
modeled separately above. -/

structure AutomatedQueue where
  key : String
  executionStartTimeStamp : String
deriving Repr, DecidableEq

structure CollectorState where
  trackerFile : Option String
  fetchedKeys : List String
  writtenReports : List String
deriving Repr, DecidableEq

/-- Tracker effect of `saveAutomatedTestList`: create the file empty when
missing, then `FileUtils.appendToFirstLine` the execution key. -/
def saveTrackerUpdate (trackerFile : Option String) (key : String) : String :=
  let data := match trackerFile with
    | none => ""
    | some content => content
  FileUtils.appendToFirstLine data key

/-- The `for (let i = n - 1; i >= 0; i--)` body of
`processAutomatedQueues`: missing entry → warn and continue; missing key
→ throw; key already in the tracker → skip; otherwise fetch, enrich, and
save (which throws when the execution has no start timestamp, writes the
report, then records the key in the tracker). -/
def processLoop (automatedQueues : List AutomatedQueue) :
    List Nat → CollectorState → Except String CollectorState
  | [], st => .ok st
  | i :: rest, st =>
    match automatedQueues[i]? with
    | none => processLoop automatedQueues rest st
    | some automatedQueue =>
      if automatedQueue.key = "" then
        .error "First automated queue does not have a key"
      else if FileUtils.doesFileContain st.trackerFile automatedQueue.key then
        processLoop automatedQueues rest st
      else if automatedQueue.executionStartTimeStamp = "" then
        .error "Automated queue does not have an execution start timestamp"
      else
        processLoop automatedQueues rest
          { trackerFile := some (saveTrackerUpdate st.trackerFile automatedQueue.key),
            fetchedKeys := st.fetchedKeys ++ [automatedQueue.key],
            writtenReports := st.writtenReports ++ [automatedQueue.key] }

/-- `processAutomatedQueues`: iterate the newest-first listing from index
`min(numberOfTestResultsToCollect, length) - 1` down to `0`. -/
def processAutomatedQueues (automatedQueues : List AutomatedQueue)
    (numberOfTestResultsToCollect : Nat) (trackerFile : Option String) :
    Except String CollectorState :=
  let numberOfAutomatedQueuesToCollect := min numberOfTestResultsToCollect automatedQueues.length
  processLoop automatedQueues ((List.range numberOfAutomatedQueuesToCollect).reverse)
    { trackerFile := trackerFile, fetchedKeys := [], writtenReports := [] }

/-! ### File-system effect trace of `saveAutomatedTestList`
(`src/unnamed/part_014`, lines 326–352)

For the write-before-mark ordering claim the function is modeled as the
sequence of file-system effects it performs.  `sanitizeName` stands for
the `sanitize-filename` library, `fmtDate`/`fmtTime` for
`date-fns` `format(ts, "yyyy-MM-dd")` / `format(ts, "HH-mm-ss")`. -/

inductive FsEvent where
  | mkdirFolder (folderPath : String)
  | writeReportFile (filePath : String)
  | createTrackerFile (filePath : String)
  | appendTrackerKey (filePath : String) (key : String)
deriving Repr, DecidableEq

/-- `path.join(settings.REPORTS_PATH, folderName)` then the report file
name `sanitize(project.name) + "_" + time + ".json"`. -/
def reportFilePath (reportsPath : String) (sanitizeName fmtDate fmtTime : String → String)
    (projectName : String) (automatedQueue : AutomatedQueue) : String :=
  let folderName := fmtDate automatedQueue.executionStartTimeStamp
  let time := fmtTime automatedQueue.executionStartTimeStamp
  pathJoin (pathJoin reportsPath folderName) (sanitizeName projectName ++ "_" ++ time ++ ".json")

/-- `path.join(settings.REPORTS_PATH, project.storeStatusFile)`. -/
def trackerFilePath (reportsPath storeStatusFile : String) : String :=
  pathJoin reportsPath storeStatusFile

/-- `saveAutomatedTestList` as its file-system effect trace: throw when
the execution start timestamp is missing; otherwise create the date
folder if absent, write the report JSON, create the tracker file if
absent, and append the execution key to the tracker's first line. -/
def saveAutomatedTestListTrace (reportsPath : String)
    (sanitizeName fmtDate fmtTime : String → String)
    (projectName storeStatusFile : String) (automatedQueue : AutomatedQueue)
    (folderExists trackerFileExists : Bool) : Except String (List FsEvent) :=
  if automatedQueue.executionStartTimeStamp = "" then
    .error "Automated queue does not have an execution start timestamp"
  else
    let folderName := fmtDate automatedQueue.executionStartTimeStamp
    let folderPath := pathJoin reportsPath folderName
    let filePath := reportFilePath reportsPath sanitizeName fmtDate fmtTime projectName automatedQueue
    let storeStatusFilePath := trackerFilePath reportsPath storeStatusFile
    .ok ((if folderExists then [] else [FsEvent.mkdirFolder folderPath]) ++
         [FsEvent.writeReportFile filePath] ++
         (if trackerFileExists then [] else [FsEvent.createTrackerFile storeStatusFilePath]) ++
         [FsEvent.appendTrackerKey storeStatusFilePath automatedQueue.key])

/-! ### Queue summary pipeline
(`src/collector/src/tests/dws-queue-results-collector.spec.ts`) -/

structure QueueSummary where
  queueId : String
  date : String
  totalTests : Nat
  passed : Nat
  failed : Nat
  passedRate : String
  duration : String
deriving Repr, DecidableEq

/-- `formatDuration`: split `"HH:MM:SS.fraction"` on `":"`; with at least
three parts, pad each of hours/minutes to two digits and truncate the
seconds at the first `"."`; otherwise return the input unchanged.  (The
surrounding `try`/`catch` never fires: no step can throw.) -/
def formatDuration (durationString : String) : String :=
  match jsSplit ':' durationString with
  | hours :: minutes :: secondsPart :: _ =>
    padStart2 hours ++ ":" ++ padStart2 minutes ++ ":" ++
      padStart2 ((jsSplit '.' secondsPart).headD "")
  | _ => durationString

/-- `successValue === "SUCCESS" || successValue === "TRUE"` on
`test.successful?.toUpperCase()`. -/
def isPassedOutcome (s : String) : Bool :=
  let successValue := jsToUpper s
  successValue == "SUCCESS" || successValue == "TRUE"

/-- Real-number semantics of `Math.round((passed / totalTests) * 100)`
for `totalTests > 0`: `⌊100·passed/totalTests + 1/2⌋`, halves rounding
up, written with natural division. -/
def mathRoundRatePct (passed totalTests : Nat) : Nat :=
  (200 * passed + totalTests) / (2 * totalTests)

/-- `calculateQueueSummary`; `fmtDate` stands for `date-fns`
`format(new Date(executionDate), "yyyy-MM-dd")`. -/
def calculateQueueSummary (fmtDate : String → String) (testResults : List TestResult)
    (queueId executionDate duration : String) : QueueSummary :=
  let tests := testResults
  let totalTests := tests.length
  let passed := (tests.filter (fun test => isPassedOutcome test.successful)).length
  let failed := totalTests - passed
  let passRate := if 0 < totalTests then mathRoundRatePct passed totalTests else 0
  { queueId := queueId,
    date := fmtDate executionDate,
    totalTests := totalTests,
    passed := passed,
    failed := failed,
    passedRate := toString passRate ++ "%",
    duration := formatDuration duration }

/-- `saveQueueSummary` on the stored array: skip when the queue id is
already present (`findIndex >= 0` — the early return happens before any
write), otherwise `unshift` the new summary and write back. -/
def saveQueueSummary (existingSummaries : List QueueSummary)
    (queueSummary : QueueSummary) : List QueueSummary :=
  match existingSummaries.findIdx? (fun s => s.queueId == queueSummary.queueId) with
  | some _ => existingSummaries
  | none => queueSummary :: existingSummaries

/-! ### Concrete inputs used in the claim theorems -/

/-- A freshly fetched failed record. -/
def c1Record : TestResult :=
  { testName := "Login test", scenarioName := "Authentication", duration := "00:00:01",
    successful := "FAIL", executionStatus := "Completed",
    executionStartTimeStamp := "2025-01-01T00:00:00Z", key := "hist-1" }

/-- A history fetch whose first failed step carries no screenshot
reference (`key` empty). -/
def c1FetchHistory : String → Except Unit (List HistoryDetailItem) := fun _ =>
  Except.ok [{ title := "Step 1", description := "assertion failed", key := "",
               executionStatus := "Completed", successful := "FAIL" }]

/-- The record of `c1Record` after enrichment against `c1FetchHistory`. -/
def c1Enriched : TestResult :=
  { c1Record with cErrorTitle := some "Step 1", cErrorDescription := some "assertion failed" }

/-- The newest-first listing of the dedup scenario. -/
def c2Listing : List AutomatedQueue :=
  [ { key := "1003", executionStartTimeStamp := "2025-01-03T00:00:00Z" },
    { key := "1002", executionStartTimeStamp := "2025-01-02T00:00:00Z" },
    { key := "1001", executionStartTimeStamp := "2025-01-01T00:00:00Z" } ]

/-- The collector state the dedup scenario ends in. -/
def c2FinalState : CollectorState :=
  { trackerFile := some "1001\n1003\n1002",
    fetchedKeys := ["1002", "1003"], writtenReports := ["1002", "1003"] }

/-- A trace of `saveAutomatedTestList` when folder and tracker already
exist. -/
def c4Events : List FsEvent :=
  [ FsEvent.writeReportFile (reportFilePath "reports" id id id "FIN"
      { key := "1001", executionStartTimeStamp := "t0" }),
    FsEvent.appendTrackerKey (trackerFilePath "reports" "fin-tracker.txt") "1001" ]

/-- A passed record whose test name the Jira search resolves to an
empty-string issue key. -/
def c7Record : TestResult :=
  { testName := "T1", scenarioName := "S", duration := "00:00:01",
    successful := "SUCCESS", executionStatus := "Completed",
    executionStartTimeStamp := "2025-01-01T00:00:00Z", key := "" }

/-- A stored queue summary. -/
def c9Stored : QueueSummary :=
  { queueId := "100", date := "2025-01-01", totalTests := 3, passed := 2, failed := 1,
    passedRate := "67%", duration := "00:01:00" }

/-- A new summary for a fresh execution id. -/
def c9New : QueueSummary :=
  { queueId := "101", date := "2025-01-02", totalTests := 1, passed := 1, failed := 0,
    passedRate := "100%", duration := "00:00:10" }

/-- A recomputed summary for the already-stored execution id. -/
def c9Dup : QueueSummary :=
  { queueId := "100", date := "2025-01-02", totalTests := 5, passed := 5, failed := 0,
    passedRate := "100%", duration := "00:02:00" }

/-! ### Basic facts about the split/join model -/

theorem splitCharList_ne_nil (sep : Char) (cs : List Char) : splitCharList sep cs ≠ [] := by
  induction cs with
  | nil => simp [splitCharList]
  | cons c cs ih =>
    simp only [splitCharList]
    split
    · simp
    · match h : splitCharList sep cs with
      | [] => exact absurd h ih
      | piece :: rest => simp

theorem sep_not_mem_of_mem_splitCharList (sep : Char) (cs : List Char) :
    ∀ l ∈ splitCharList sep cs, sep ∉ l := by
  induction cs with
  | nil => simp [splitCharList]
  | cons c cs ih =>
    simp only [splitCharList]
    split
    · intro l hl
      rcases List.mem_cons.1 hl with h | h
      · simp [h]
      · exact ih l h
    · match h : splitCharList sep cs with
      | [] => exact absurd h (splitCharList_ne_nil sep cs)
      | piece :: rest =>
        intro l hl
        rcases List.mem_cons.1 hl with h' | h'
        · subst h'
          intro hmem
          rcases List.mem_cons.1 hmem with rfl | hmem'
          · simp_all
          · exact ih piece (h ▸ List.mem_cons_self _ _) hmem'
        · exact ih l (h ▸ List.mem_cons_of_mem _ h')

/-- Splitting a list with an explicit separator in the middle splits around it. -/
theorem splitCharList_append_sep (sep : Char) (a b : List Char) :
    splitCharList sep (a ++ sep :: b) = splitCharList sep a ++ splitCharList sep b := by
  induction a with
  | nil => simp [splitCharList]
  | cons c a ih =>
    by_cases hc : c = sep
    · subst hc
      simp [splitCharList, ih]
    · simp only [List.cons_append, splitCharList, if_neg hc]
      rw [List.append_eq, ih]
      match h : splitCharList sep a with
      | [] => exact absurd h (splitCharList_ne_nil sep a)
      | piece :: rest => simp

/-- A separator-free list splits to the single piece it is. -/
theorem splitCharList_of_not_mem (sep : Char) (cs : List Char) (h : sep ∉ cs) :
    splitCharList sep cs = [cs] := by
  induction cs with
  | nil => simp [splitCharList]
  | cons c cs ih =>
    have hc : c ≠ sep := fun hc => h (hc ▸ List.mem_cons_self _ _)
    have hcs : sep ∉ cs := fun h' => h (List.mem_cons_of_mem _ h')
    simp [splitCharList, hc, ih hcs]

/-- Splitting the `"\n"`-join of pieces recovers the concatenation of the
pieces' own splits. -/
theorem splitCharList_joinNl (ls : List (List Char)) (h : ls ≠ []) :
    splitCharList '\n' (joinNlCharList ls) = (ls.map (splitCharList '\n')).flatten := by
  induction ls with
  | nil => exact absurd rfl h
  | cons l ls ih =>
    match ls with
    | [] => simp [joinNlCharList]
    | l' :: ls' =>
      simp only [joinNlCharList, List.map_cons, List.flatten_cons]
      rw [splitCharList_append_sep]
      rw [ih (by simp)]
      simp

/-! ### `FileUtils` line-structure lemmas -/

namespace FileUtils

theorem readLines_ne_nil (data : String) : readLines data ≠ [] := by
  intro h
  have := splitCharList_ne_nil '\n' data.data
  simp only [readLines, jsSplit] at h
  exact this (List.map_eq_nil_iff.mp h)

theorem newline_not_mem_readLines (data : String) :
    ∀ l ∈ readLines data, '\n' ∉ l.data := by
  intro l hl
  simp only [readLines, jsSplit, List.mem_map] at hl
  obtain ⟨piece, hpiece, rfl⟩ := hl
  exact sep_not_mem_of_mem_splitCharList '\n' data.data piece hpiece

/-- The exact effect of `appendToFirstLine` on the line structure: the new
content is inserted (as its own lines) immediately after the original
first line. -/
theorem readLines_appendToFirstLine (data content l0 : String) (rest : List String)
    (h : readLines data = l0 :: rest) :
    readLines (appendToFirstLine data content) = l0 :: (readLines content ++ rest) := by
  have hl0 : '\n' ∉ l0.data :=
    newline_not_mem_readLines data l0 (h ▸ List.mem_cons_self _ _)
  have hrest : ∀ r ∈ rest, '\n' ∉ r.data := fun r hr =>
    newline_not_mem_readLines data r (h ▸ List.mem_cons_of_mem _ hr)
  simp only [appendToFirstLine, h]
  simp only [readLines, jsSplit, joinNl]
  rw [splitCharList_joinNl _ (by simp)]
  simp only [List.map_cons, List.flatten_cons]
  rw [show (l0 ++ "\n" ++ content).data = l0.data ++ '\n' :: content.data by
        simp [String.data_append]]
  rw [splitCharList_append_sep, splitCharList_of_not_mem _ _ hl0]
  have hflat : ∀ ls : List String, (∀ r ∈ ls, '\n' ∉ r.data) →
      ((ls.map String.data).map (splitCharList '\n')).flatten = ls.map String.data := by
    intro ls
    induction ls with
    | nil => intro _; rfl
    | cons r rs ih =>
      intro hls
      simp only [List.map_cons, List.flatten_cons]
      rw [splitCharList_of_not_mem _ _ (hls r (List.mem_cons_self _ _))]
      rw [ih (fun r' hr' => hls r' (List.mem_cons_of_mem _ hr'))]
      rfl
  rw [hflat rest hrest]
  simp [Function.comp_def]

/-- Any line of the original file is still a full line after
`appendToFirstLine`; hence `doesFileContain` answers are preserved. -/
theorem doesFileContain_appendToFirstLine (data content s : String)
    (h : doesFileContain (some data) s = true) :
    doesFileContain (some (appendToFirstLine data content)) s = true := by
  simp only [doesFileContain, List.any_eq_true] at h ⊢
  obtain ⟨line, hline, hinc⟩ := h
  match hsplit : readLines data with
  | [] => exact absurd hsplit (readLines_ne_nil data)
  | l0 :: rest =>
    rw [readLines_appendToFirstLine data content l0 rest hsplit]
    rw [hsplit] at hline
    rcases List.mem_cons.1 hline with rfl | hmem
    · exact ⟨line, List.mem_cons_self _ _, hinc⟩
    · exact ⟨line, List.mem_cons_of_mem _ (List.mem_append_right _ hmem), hinc⟩

end FileUtils

/-! ### Lemmas about the cache primitives -/

theorem cacheHas_iff_isSome (cache : JiraCache) (k : String) :
    cacheHas cache k = true ↔ (cacheGet cache k).isSome = true := by
  induction cache with
  | nil => simp [cacheHas, cacheGet]
  | cons p ps ih =>
    by_cases hp : p.1 == k
    · simp [cacheHas, cacheGet, List.find?_cons, hp]
    · simp only [cacheHas, List.any_cons, hp, Bool.false_or] at ih ⊢
      simp [cacheGet, List.find?_cons, hp, ih]

theorem cacheGet_cacheSet_self (cache : JiraCache) (k : String) (v : Option String) :
    cacheGet (cacheSet cache k v) k = some v := by
  induction cache with
  | nil => simp [cacheGet, cacheSet, List.find?_cons]
  | cons p ps ih =>
    by_cases hp : (p.1 == k) = true
    · simp [cacheGet, cacheSet, List.find?_cons, hp]
    · simpa [cacheGet, cacheSet, List.find?_cons, hp] using ih

theorem cacheGet_cacheSet_ne (cache : JiraCache) (k k' : String) (v : Option String)
    (h : k' ≠ k) : cacheGet (cacheSet cache k v) k' = cacheGet cache k' := by
  have h1 : ¬ (k == k') = true := by simpa using fun hh => h hh.symm
  induction cache with
  | nil => simp [cacheGet, cacheSet, List.find?_cons, h1]
  | cons p ps ih =>
    by_cases hp : (p.1 == k) = true
    · have hpk : p.1 = k := by simpa using hp
      simp [cacheGet, cacheSet, List.find?_cons, hp, h1, hpk]
    · by_cases hp' : (p.1 == k') = true
      · simp [cacheGet, cacheSet, List.find?_cons, hp, hp']
      · simpa [cacheGet, cacheSet, List.find?_cons, hp, hp'] using ih

theorem cacheHas_cacheSet_self (cache : JiraCache) (k : String) (v : Option String) :
    cacheHas (cacheSet cache k v) k = true :=
  (cacheHas_iff_isSome _ _).mpr (by simp [cacheGet_cacheSet_self])

theorem cacheHas_cacheSet_mono (cache : JiraCache) (k k' : String) (v : Option String)
    (h : cacheHas cache k' = true) : cacheHas (cacheSet cache k v) k' = true := by
  by_cases hk : k' = k
  · subst hk; exact cacheHas_cacheSet_self cache k' v
  · exact (cacheHas_iff_isSome _ _).mpr
      (by rw [cacheGet_cacheSet_ne cache k k' v hk]; exact (cacheHas_iff_isSome cache k').mp h)

theorem length_le_cacheSet (cache : JiraCache) (k : String) (v : Option String) :
    cache.length ≤ (cacheSet cache k v).length := by
  induction cache with
  | nil => simp [cacheSet]
  | cons p ps ih =>
    by_cases hp : (p.1 == k) = true
    · simp [cacheSet, hp]
    · simpa [cacheSet, hp] using ih

/-! ### Lemmas about the two phases of `searchIssuesByTestNames` -/

theorem checkCacheLoop_uncached_spec (cache : JiraCache) (names : List String)
    (results : JiraCache) (uncached : List String) :
    (checkCacheLoop cache names results uncached).2 =
      uncached ++ names.filter (fun n => (cacheGet cache n).isNone) := by
  induction names generalizing results uncached with
  | nil => simp [checkCacheLoop]
  | cons n ns ih =>
    cases hg : cacheGet cache n with
    | some v => simp [checkCacheLoop, hg, ih, List.filter_cons]
    | none => simp [checkCacheLoop, hg, ih, List.filter_cons]

theorem checkCacheLoop_results_not_mem (cache : JiraCache) (names : List String)
    (results : JiraCache) (uncached : List String) (n : String) (h : n ∉ names) :
    cacheGet (checkCacheLoop cache names results uncached).1 n = cacheGet results n := by
  induction names generalizing results uncached with
  | nil => simp [checkCacheLoop]
  | cons m ns ih =>
    have hnm : n ≠ m := fun hc => h (hc ▸ List.mem_cons_self _ _)
    have hns : n ∉ ns := fun hc => h (List.mem_cons_of_mem _ hc)
    cases hg : cacheGet cache m with
    | some v => rw [checkCacheLoop, hg, ih _ _ hns, cacheGet_cacheSet_ne _ _ _ _ hnm]
    | none => rw [checkCacheLoop, hg, ih _ _ hns]

theorem checkCacheLoop_results_hit (cache : JiraCache) (names : List String)
    (results : JiraCache) (uncached : List String) (n : String) (v : Option String)
    (hv : cacheGet cache n = some v) (hmem : n ∈ names) :
    cacheGet (checkCacheLoop cache names results uncached).1 n = some v := by
  induction names generalizing results uncached with
  | nil => exact absurd hmem (List.not_mem_nil n)
  | cons m ns ih =>
    by_cases hns : n ∈ ns
    · cases hg : cacheGet cache m with
      | some w => rw [checkCacheLoop, hg]; exact ih _ _ hns
      | none => rw [checkCacheLoop, hg]; exact ih _ _ hns
    · have hnm : n = m := by
        rcases List.mem_cons.1 hmem with h | h
        · exact h
        · exact absurd h hns
      subst hnm
      rw [checkCacheLoop, hv]
      rw [checkCacheLoop_results_not_mem _ _ _ _ _ hns, cacheGet_cacheSet_self]

theorem searchLoop_searched_spec (searchIssues : String → Except Unit (List String))
    (jiraProject : String) (names : List String) (results cache : JiraCache)
    (searched : List String) :
    (searchLoop searchIssues jiraProject names results cache searched).searched =
      searched ++ names := by
  induction names generalizing results cache searched with
  | nil => simp [searchLoop]
  | cons m ns ih =>
    rw [searchLoop]
    cases hs : searchIssues (buildJql jiraProject m) with
    | ok issues => cases issues with
      | nil => rw [ih]; simp
      | cons issueKey ks => rw [ih]; simp
    | error e => rw [ih]; simp

theorem searchLoop_results_not_mem (searchIssues : String → Except Unit (List String))
    (jiraProject : String) (names : List String) (results cache : JiraCache)
    (searched : List String) (n : String) (h : n ∉ names) :
    cacheGet (searchLoop searchIssues jiraProject names results cache searched).results n =
      cacheGet results n := by
  induction names generalizing results cache searched with
  | nil => simp [searchLoop]
  | cons m ns ih =>
    have hnm : n ≠ m := fun hc => h (hc ▸ List.mem_cons_self _ _)
    have hns : n ∉ ns := fun hc => h (List.mem_cons_of_mem _ hc)
    rw [searchLoop]
    cases hs : searchIssues (buildJql jiraProject m) with
    | ok issues => cases issues with
      | nil => rw [ih _ _ _ hns, cacheGet_cacheSet_ne _ _ _ _ hnm]
      | cons issueKey ks => rw [ih _ _ _ hns, cacheGet_cacheSet_ne _ _ _ _ hnm]
    | error e => rw [ih _ _ _ hns, cacheGet_cacheSet_ne _ _ _ _ hnm]

theorem searchLoop_cache_not_mem (searchIssues : String → Except Unit (List String))
    (jiraProject : String) (names : List String) (results cache : JiraCache)
    (searched : List String) (n : String) (h : n ∉ names) :
    cacheGet (searchLoop searchIssues jiraProject names results cache searched).cache n =
      cacheGet cache n := by
  induction names generalizing results cache searched with
  | nil => simp [searchLoop]
  | cons m ns ih =>
    have hnm : n ≠ m := fun hc => h (hc ▸ List.mem_cons_self _ _)
    have hns : n ∉ ns := fun hc => h (List.mem_cons_of_mem _ hc)
    rw [searchLoop]
    cases hs : searchIssues (buildJql jiraProject m) with
    | ok issues => cases issues with
      | nil => rw [ih _ _ _ hns, cacheGet_cacheSet_ne _ _ _ _ hnm]
      | cons issueKey ks => rw [ih _ _ _ hns, cacheGet_cacheSet_ne _ _ _ _ hnm]
    | error e => rw [ih _ _ _ hns, cacheGet_cacheSet_ne _ _ _ _ hnm]

theorem searchLoop_results_mem (searchIssues : String → Except Unit (List String))
    (jiraProject : String) (names : List String) (results cache : JiraCache)
    (searched : List String) (n : String) (h : n ∈ names) :
    cacheGet (searchLoop searchIssues jiraProject names results cache searched).results n =
      some (searchResultValue searchIssues jiraProject n) := by
  induction names generalizing results cache searched with
  | nil => exact absurd h (List.not_mem_nil n)
  | cons m ns ih =>
    by_cases hns : n ∈ ns
    · rw [searchLoop]
      cases hs : searchIssues (buildJql jiraProject m) with
      | ok issues => cases issues with
        | nil => exact ih _ _ _ hns
        | cons issueKey ks => exact ih _ _ _ hns
      | error e => exact ih _ _ _ hns
    · have hnm : n = m := by
        rcases List.mem_cons.1 h with h' | h'
        · exact h'
        · exact absurd h' hns
      subst hnm
      rw [searchLoop]
      cases hs : searchIssues (buildJql jiraProject n) with
      | ok issues => cases issues with
        | nil =>
          rw [searchLoop_results_not_mem _ _ _ _ _ _ _ hns, cacheGet_cacheSet_self,
            searchResultValue, hs]
        | cons issueKey ks =>
          rw [searchLoop_results_not_mem _ _ _ _ _ _ _ hns, cacheGet_cacheSet_self,
            searchResultValue, hs]
      | error e =>
        rw [searchLoop_results_not_mem _ _ _ _ _ _ _ hns, cacheGet_cacheSet_self,
          searchResultValue, hs]

theorem searchLoop_cache_mem (searchIssues : String → Except Unit (List String))
    (jiraProject : String) (names : List String) (results cache : JiraCache)
    (searched : List String) (n : String) (h : n ∈ names) :
    cacheGet (searchLoop searchIssues jiraProject names results cache searched).cache n =
      some (searchResultValue searchIssues jiraProject n) := by
  induction names generalizing results cache searched with
  | nil => exact absurd h (List.not_mem_nil n)
  | cons m ns ih =>
    by_cases hns : n ∈ ns
    · rw [searchLoop]
      cases hs : searchIssues (buildJql jiraProject m) with
      | ok issues => cases issues with
        | nil => exact ih _ _ _ hns
        | cons issueKey ks => exact ih _ _ _ hns
      | error e => exact ih _ _ _ hns
    · have hnm : n = m := by
        rcases List.mem_cons.1 h with h' | h'
        · exact h'
        · exact absurd h' hns
      subst hnm
      rw [searchLoop]
      cases hs : searchIssues (buildJql jiraProject n) with
      | ok issues => cases issues with
        | nil =>
          rw [searchLoop_cache_not_mem _ _ _ _ _ _ _ hns, cacheGet_cacheSet_self,
            searchResultValue, hs]
        | cons issueKey ks =>
          rw [searchLoop_cache_not_mem _ _ _ _ _ _ _ hns, cacheGet_cacheSet_self,
            searchResultValue, hs]
      | error e =>
        rw [searchLoop_cache_not_mem _ _ _ _ _ _ _ hns, cacheGet_cacheSet_self,
          searchResultValue, hs]

theorem searchLoop_cache_has_mono (searchIssues : String → Except Unit (List String))
    (jiraProject : String) (names : List String) (results cache : JiraCache)
    (searched : List String) (n : String) (h : cacheHas cache n = true) :
    cacheHas (searchLoop searchIssues jiraProject names results cache searched).cache n = true := by
  induction names generalizing results cache searched with
  | nil => simpa [searchLoop] using h
  | cons m ns ih =>
    rw [searchLoop]
    cases hs : searchIssues (buildJql jiraProject m) with
    | ok issues => cases issues with
      | nil => exact ih _ _ _ (cacheHas_cacheSet_mono _ _ _ _ h)
      | cons issueKey ks => exact ih _ _ _ (cacheHas_cacheSet_mono _ _ _ _ h)
    | error e => exact ih _ _ _ (cacheHas_cacheSet_mono _ _ _ _ h)

theorem searchLoop_cache_length (searchIssues : String → Except Unit (List String))
    (jiraProject : String) (names : List String) (results cache : JiraCache)
    (searched : List String) :
    cache.length ≤ (searchLoop searchIssues jiraProject names results cache searched).cache.length := by
  induction names generalizing results cache searched with
  | nil => simp [searchLoop]
  | cons m ns ih =>
    rw [searchLoop]
    cases hs : searchIssues (buildJql jiraProject m) with
    | ok issues => cases issues with
      | nil => exact le_trans (length_le_cacheSet _ _ _) (ih _ _ _)
      | cons issueKey ks => exact le_trans (length_le_cacheSet _ _ _) (ih _ _ _)
    | error e => exact le_trans (length_le_cacheSet _ _ _) (ih _ _ _)

/-- Every name fed to `searchIssuesByTestNames` ends up in the returned
cache: hits were already there, misses get set by the query loop. -/
theorem searchIssuesByTestNames_cache_has_input
    (searchIssues : String → Except Unit (List String)) (jiraProject : String)
    (testNames : List String) (cache : JiraCache) (n : String) (h : n ∈ testNames) :
    cacheHas (searchIssuesByTestNames searchIssues jiraProject testNames cache).cache n = true := by
  unfold searchIssuesByTestNames
  cases hg : cacheGet cache n with
  | some v =>
    exact searchLoop_cache_has_mono _ _ _ _ _ _ _
      ((cacheHas_iff_isSome cache n).mpr (by simp [hg]))
  | none =>
    have hmem : n ∈ (checkCacheLoop cache testNames [] []).2 := by
      rw [checkCacheLoop_uncached_spec]
      simp only [List.nil_append, List.mem_filter]
      exact ⟨h, by simp [hg]⟩
    exact (cacheHas_iff_isSome _ n).mpr (by rw [searchLoop_cache_mem _ _ _ _ _ _ _ hmem]; rfl)

/-- A name already in the starting cache is not queried by
`searchIssuesByTestNames`. -/
theorem searchIssuesByTestNames_cached_not_searched
    (searchIssues : String → Except Unit (List String)) (jiraProject : String)
    (testNames : List String) (cache : JiraCache) (n : String)
    (h : cacheHas cache n = true) :
    n ∉ (searchIssuesByTestNames searchIssues jiraProject testNames cache).searched := by
  unfold searchIssuesByTestNames
  rw [searchLoop_searched_spec, List.nil_append, checkCacheLoop_uncached_spec, List.nil_append]
  intro hc
  have := (List.mem_filter.1 hc).2
  have hsome := (cacheHas_iff_isSome cache n).mp h
  simp only [Option.isNone_iff_eq_none, decide_eq_true_eq] at this
  rw [this] at hsome
  simp at hsome

/-- Entries present in the starting cache keep their values through a
`searchIssuesByTestNames` run (only uncached names are written). -/
theorem searchIssuesByTestNames_cache_preserved
    (searchIssues : String → Except Unit (List String)) (jiraProject : String)
    (testNames : List String) (cache : JiraCache) (n : String)
    (h : cacheHas cache n = true) :
    cacheGet (searchIssuesByTestNames searchIssues jiraProject testNames cache).cache n =
      cacheGet cache n := by
  unfold searchIssuesByTestNames
  have hnot : n ∉ (checkCacheLoop cache testNames [] []).2 := by
    rw [checkCacheLoop_uncached_spec, List.nil_append]
    intro hc
    have := (List.mem_filter.1 hc).2
    have hsome := (cacheHas_iff_isSome cache n).mp h
    simp only [Option.isNone_iff_eq_none, decide_eq_true_eq] at this
    rw [this] at hsome
    simp at hsome
  exact searchLoop_cache_not_mem _ _ _ _ _ _ _ hnot

/-- The cache never shrinks across a `searchIssuesByTestNames` run. -/
theorem searchIssuesByTestNames_cache_length
    (searchIssues : String → Except Unit (List String)) (jiraProject : String)
    (testNames : List String) (cache : JiraCache) :
    cache.length ≤
      (searchIssuesByTestNames searchIssues jiraProject testNames cache).cache.length := by
  unfold searchIssuesByTestNames
  exact searchLoop_cache_length _ _ _ _ _ _

/-- The returned results map binds every input name. -/
theorem searchIssuesByTestNames_results_total
    (searchIssues : String → Except Unit (List String)) (jiraProject : String)
    (testNames : List String) (cache : JiraCache) (n : String) (h : n ∈ testNames) :
    (cacheGet (searchIssuesByTestNames searchIssues jiraProject testNames cache).results n).isSome = true := by
  unfold searchIssuesByTestNames
  cases hg : cacheGet cache n with
  | some v =>
    by_cases hu : n ∈ (checkCacheLoop cache testNames [] []).2
    · rw [searchLoop_results_mem _ _ _ _ _ _ _ hu]; rfl
    · rw [searchLoop_results_not_mem _ _ _ _ _ _ _ hu,
        checkCacheLoop_results_hit cache testNames [] [] n v hg h]
      rfl
  | none =>
    have hmem : n ∈ (checkCacheLoop cache testNames [] []).2 := by
      rw [checkCacheLoop_uncached_spec]
      simp only [List.nil_append, List.mem_filter]
      exact ⟨h, by simp [hg]⟩
    rw [searchLoop_results_mem _ _ _ _ _ _ _ hmem]
    rfl

/-- If the last element of a list is distinct from all earlier ones, any
`take`-prefix containing it contains every earlier element. -/
theorem mem_take_of_mem_front (α : Type) (xs : List α) (a w : α) (ha : a ∉ xs) (hw : w ∈ xs)
    (n : Nat) (h : a ∈ (xs ++ [a]).take n) : w ∈ (xs ++ [a]).take n := by
  rw [List.take_append_eq_append_take] at h ⊢
  by_cases hlen : xs.length < n
  · have hx : xs.take n = xs := List.take_of_length_le (le_of_lt hlen)
    rw [hx] at h ⊢
    exact List.mem_append_left _ hw
  · have h0 : n - xs.length = 0 := by omega
    rw [h0] at h
    simp only [List.take_zero, List.append_nil] at h
    exact absurd (List.mem_of_mem_take h) ha

/-- `[...new Set(xs)]` has the same members as `xs`. -/
theorem mem_jsDedup (xs : List String) (x : String) : x ∈ jsDedup xs ↔ x ∈ xs := by
  have haux : ∀ (ys : List String) (acc : List String),
      x ∈ ys.foldl (fun acc x => if x ∈ acc then acc else acc ++ [x]) acc ↔
        x ∈ acc ∨ x ∈ ys := by
    intro ys
    induction ys with
    | nil => intro acc; simp
    | cons y ys ih =>
      intro acc
      by_cases hy : y ∈ acc
      · rw [List.foldl_cons, if_pos hy, ih]
        constructor
        · rintro (h | h)
          · exact Or.inl h
          · exact Or.inr (List.mem_cons_of_mem _ h)
        · rintro (h | h)
          · exact Or.inl h
          · rcases List.mem_cons.1 h with rfl | h'
            · exact Or.inl hy
            · exact Or.inr h'
      · rw [List.foldl_cons, if_neg hy, ih]
        simp [List.mem_append, or_assoc, List.mem_cons]
  unfold jsDedup
  rw [haux xs []]
  simp

/-- Through the collection loop, a key already visible in the tracker is
never fetched and never written: the tracker only grows
(`appendToFirstLine` keeps every existing line intact), so the
containment check keeps skipping it. -/
theorem processLoop_skips_tracked (automatedQueues : List AutomatedQueue) (idxs : List Nat)
    (st st' : CollectorState) (k : String)
    (htr : FileUtils.doesFileContain st.trackerFile k = true)
    (hfetched : k ∉ st.fetchedKeys) (hwritten : k ∉ st.writtenReports)
    (hrun : processLoop automatedQueues idxs st = .ok st') :
    k ∉ st'.fetchedKeys ∧ k ∉ st'.writtenReports := by
  induction idxs generalizing st with
  | nil =>
    rw [processLoop] at hrun
    injection hrun with hrun
    subst hrun
    exact ⟨hfetched, hwritten⟩
  | cons i rest ih =>
    rw [processLoop] at hrun
    split at hrun
    · exact ih st htr hfetched hwritten hrun
    · rename_i automatedQueue hidx
      split_ifs at hrun with hkey hcont hts
      · exact ih st htr hfetched hwritten hrun
      · have hne : k ≠ automatedQueue.key := by
          intro hc
          exact hcont (hc ▸ htr)
        obtain ⟨data, hdata⟩ : ∃ data, st.trackerFile = some data := by
          cases hfile : st.trackerFile with
          | none => rw [hfile] at htr; simp [FileUtils.doesFileContain] at htr
          | some data => exact ⟨data, rfl⟩
        have htr' : FileUtils.doesFileContain
            (some (saveTrackerUpdate st.trackerFile automatedQueue.key)) k = true := by
          rw [hdata] at htr ⊢
          exact FileUtils.doesFileContain_appendToFirstLine data automatedQueue.key k htr
        refine ih _ htr' ?_ ?_ hrun
        · simp only [List.mem_append, List.mem_singleton]
          rintro (h | h)
          · exact hfetched h
          · exact hne h
        · simp only [List.mem_append, List.mem_singleton]
          rintro (h | h)
          · exact hwritten h
          · exact hne h

/-- The value bound for an uncached input name is the query outcome. -/
theorem searchIssuesByTestNames_uncached_value
    (searchIssues : String → Except Unit (List String)) (jiraProject : String)
    (testNames : List String) (cache : JiraCache) (n : String)
    (hmem : n ∈ testNames) (hmiss : cacheHas cache n = false) :
    cacheGet (searchIssuesByTestNames searchIssues jiraProject testNames cache).results n =
        some (searchResultValue searchIssues jiraProject n) ∧
      cacheGet (searchIssuesByTestNames searchIssues jiraProject testNames cache).cache n =
        some (searchResultValue searchIssues jiraProject n) := by
  unfold searchIssuesByTestNames
  have hg : cacheGet cache n = none := by
    cases hg : cacheGet cache n with
    | none => rfl
    | some v =>
      have := (cacheHas_iff_isSome cache n).mpr (by simp [hg])
      rw [hmiss] at this
      exact absurd this (by simp)
  have hmemu : n ∈ (checkCacheLoop cache testNames [] []).2 := by
    rw [checkCacheLoop_uncached_spec]
    simp only [List.nil_append, List.mem_filter]
    exact ⟨hmem, by simp [hg]⟩
  exact ⟨searchLoop_results_mem _ _ _ _ _ _ _ hmemu,
    searchLoop_cache_mem _ _ _ _ _ _ _ hmemu⟩

/-! ### Claim theorems -/

/-- C1 (counterexample): the all-three-or-none invariant for `FAILED`
records fails on the code: a failed record whose first failed history
step carries an empty screenshot reference ends up with error title and
description populated but no screenshot field — a proper subset. -/
theorem enrichment_partial_failure_fields_cex :
    ¬ (∀ t ∈ getAutomatedTestListEnrichment c1FetchHistory (fun _ => true) 0 [c1Record],
        isFailOutcome t.successful = true → (hasAllFailureFields t ∨ hasNoFailureFields t)) := by
  decide

/-- C1 (amended): after the enrichment pass of
`getAutomatedTestListForTestQueue` (screenshot download enabled), every
`FAILED` record of a freshly fetched batch has all three failure fields
populated, or error title and description populated with the screenshot
reference absent (when the failing step has no screenshot reference), or
all three absent. -/
theorem enrichment_failure_fields_trichotomy
    (fetchHistory : String → Except Unit (List HistoryDetailItem))
    (downloadOk : String → Bool) (now : Nat) (records : List TestResult)
    (hfresh : ∀ t ∈ records, hasNoFailureFields t) :
    ∀ t ∈ getAutomatedTestListEnrichment fetchHistory downloadOk now records,
      isFailOutcome t.successful = true →
        hasAllFailureFields t ∨
          (t.cErrorTitle.isSome = true ∧ t.cErrorDescription.isSome = true ∧
            t.cImageUrl = none) ∨
          hasNoFailureFields t := by
  intro t ht hfail
  simp only [getAutomatedTestListEnrichment, List.mem_map] at ht
  obtain ⟨s, hs, rfl⟩ := ht
  clear hfail
  split
  · unfold enrichFailedTest
    split
    · exact Or.inr (Or.inr (hfresh s hs))
    · split
      · exact Or.inr (Or.inr (hfresh s hs))
      · split
        · dsimp only
          split
          · exact Or.inl ⟨rfl, rfl, rfl⟩
          · exact Or.inl ⟨rfl, rfl, rfl⟩
        · exact Or.inr (Or.inl ⟨rfl, rfl, (hfresh s hs).2.2⟩)
  · exact Or.inr (Or.inr (hfresh s hs))

/-- C1 (witness): the trichotomy instantiated at the concrete failed
record enriched from a step without screenshot reference. -/
theorem enrichment_failure_fields_trichotomy_witness :
    hasAllFailureFields c1Enriched ∨
      (c1Enriched.cErrorTitle.isSome = true ∧ c1Enriched.cErrorDescription.isSome = true ∧
        c1Enriched.cImageUrl = none) ∨
      hasNoFailureFields c1Enriched :=
  enrichment_failure_fields_trichotomy c1FetchHistory (fun _ => true) 0 [c1Record]
    (by decide) c1Enriched (by decide) (by decide)

/-- C2: an execution key already visible in the tracker file is never
fetched and never written by `processAutomatedQueues`; on the scenario
(tracker `"1001"`, newest-first listing `["1003","1002","1001"]`, three
to collect) only `"1002"` then `"1003"` are fetched and written (oldest
of the new pair first), both keys are added to the tracker, and the
existing `"1001"` line survives exactly once. -/
theorem processAutomatedQueues_dedup_skip_and_scenario :
    (∀ (automatedQueues : List AutomatedQueue) (count : Nat) (trackerFile : Option String)
        (k : String) (st : CollectorState),
        FileUtils.doesFileContain trackerFile k = true →
        processAutomatedQueues automatedQueues count trackerFile = .ok st →
        k ∉ st.fetchedKeys ∧ k ∉ st.writtenReports) ∧
      processAutomatedQueues c2Listing 3 (some "1001") = .ok c2FinalState ∧
      c2FinalState.fetchedKeys = ["1002", "1003"] ∧
      c2FinalState.writtenReports = ["1002", "1003"] ∧
      FileUtils.readLines "1001\n1003\n1002" = ["1001", "1003", "1002"] ∧
      (FileUtils.readLines "1001\n1003\n1002").count "1001" = 1 := by
  refine ⟨?_, by rfl, by decide, by decide, by decide, by decide⟩
  intro automatedQueues count trackerFile k st htr hrun
  exact processLoop_skips_tracked automatedQueues
    ((List.range (min count automatedQueues.length)).reverse)
    { trackerFile := trackerFile, fetchedKeys := [], writtenReports := [] }
    st k htr (by simp) (by simp) hrun

/-- C2 (witness): the skip property applied to key `"1001"` in the
concrete scenario. -/
theorem processAutomatedQueues_dedup_witness :
    "1001" ∉ c2FinalState.fetchedKeys ∧ "1001" ∉ c2FinalState.writtenReports :=
  processAutomatedQueues_dedup_skip_and_scenario.1 c2Listing 3 (some "1001") "1001"
    c2FinalState (by decide) (by rfl)

/-- C3 (counterexample): a recorded key is not prepended as the new first
line: appending `"1002"` to a tracker containing `"1001"` leaves
`"1001"` as the first line, with the new key below it. -/
theorem appendToFirstLine_not_prepending_cex :
    FileUtils.appendToFirstLine "1001" "1002" = "1001\n1002" ∧
      (FileUtils.readLines (FileUtils.appendToFirstLine "1001" "1002")).head? = some "1001" ∧
      (FileUtils.readLines (FileUtils.appendToFirstLine "1001" "1002")).head? ≠ some "1002" := by
  decide

/-- C3 (amended): `appendToFirstLine` inserts the new content immediately
after the first line (not before it); since the collector creates the
tracker as an empty file, the tracker's first line is the empty string
and newly recorded keys accumulate most-recent-first below it. -/
theorem appendToFirstLine_inserts_after_first_line
    (data content l0 : String) (rest : List String)
    (h : FileUtils.readLines data = l0 :: rest) :
    FileUtils.readLines (FileUtils.appendToFirstLine data content) =
        l0 :: (FileUtils.readLines content ++ rest) ∧
      FileUtils.readLines
          (FileUtils.appendToFirstLine (FileUtils.appendToFirstLine "" "1001") "1002") =
        ["", "1002", "1001"] :=
  ⟨FileUtils.readLines_appendToFirstLine data content l0 rest h, by decide⟩

/-- C3 (witness): the insertion law at the concrete tracker `"1001"` and
key `"1002"`. -/
theorem appendToFirstLine_inserts_after_first_line_witness :
    FileUtils.readLines (FileUtils.appendToFirstLine "1001" "1002") =
        "1001" :: (FileUtils.readLines "1002" ++ []) ∧
      FileUtils.readLines
          (FileUtils.appendToFirstLine (FileUtils.appendToFirstLine "" "1001") "1002") =
        ["", "1002", "1001"] :=
  appendToFirstLine_inserts_after_first_line "1001" "1002" "1001" [] (by decide)

/-- C4: in `saveAutomatedTestList`'s effect trace the report write
precedes the tracker append: both effects occur, and every prefix of the
trace (an interruption point) that contains the tracker append already
contains the report write, so no key is recorded without its artifact. -/
theorem saveAutomatedTestList_write_before_mark
    (reportsPath : String) (sanitizeName fmtDate fmtTime : String → String)
    (projectName storeStatusFile : String) (automatedQueue : AutomatedQueue)
    (folderExists trackerFileExists : Bool) (events : List FsEvent)
    (h : saveAutomatedTestListTrace reportsPath sanitizeName fmtDate fmtTime projectName
        storeStatusFile automatedQueue folderExists trackerFileExists = .ok events) :
    FsEvent.writeReportFile
        (reportFilePath reportsPath sanitizeName fmtDate fmtTime projectName automatedQueue) ∈
        events ∧
      FsEvent.appendTrackerKey (trackerFilePath reportsPath storeStatusFile)
          automatedQueue.key ∈ events ∧
      ∀ n : Nat,
        FsEvent.appendTrackerKey (trackerFilePath reportsPath storeStatusFile)
            automatedQueue.key ∈ events.take n →
          FsEvent.writeReportFile
              (reportFilePath reportsPath sanitizeName fmtDate fmtTime projectName
                automatedQueue) ∈
            events.take n := by
  unfold saveAutomatedTestListTrace at h
  by_cases hts : automatedQueue.executionStartTimeStamp = ""
  · rw [if_pos hts] at h
    exact Except.noConfusion h
  · rw [if_neg hts] at h
    injection h with h
    subst h
    cases folderExists <;> cases trackerFileExists <;>
      refine ⟨by simp, by simp, fun n hn => ?_⟩
    · exact mem_take_of_mem_front FsEvent
        [FsEvent.mkdirFolder (pathJoin reportsPath (fmtDate automatedQueue.executionStartTimeStamp)),
         FsEvent.writeReportFile (reportFilePath reportsPath sanitizeName fmtDate fmtTime
           projectName automatedQueue),
         FsEvent.createTrackerFile (trackerFilePath reportsPath storeStatusFile)]
        (FsEvent.appendTrackerKey (trackerFilePath reportsPath storeStatusFile) automatedQueue.key)
        (FsEvent.writeReportFile (reportFilePath reportsPath sanitizeName fmtDate fmtTime
          projectName automatedQueue))
        (by simp) (by simp) n hn
    · exact mem_take_of_mem_front FsEvent
        [FsEvent.mkdirFolder (pathJoin reportsPath (fmtDate automatedQueue.executionStartTimeStamp)),
         FsEvent.writeReportFile (reportFilePath reportsPath sanitizeName fmtDate fmtTime
           projectName automatedQueue)]
        (FsEvent.appendTrackerKey (trackerFilePath reportsPath storeStatusFile) automatedQueue.key)
        (FsEvent.writeReportFile (reportFilePath reportsPath sanitizeName fmtDate fmtTime
          projectName automatedQueue))
        (by simp) (by simp) n hn
    · exact mem_take_of_mem_front FsEvent
        [FsEvent.writeReportFile (reportFilePath reportsPath sanitizeName fmtDate fmtTime
           projectName automatedQueue),
         FsEvent.createTrackerFile (trackerFilePath reportsPath storeStatusFile)]
        (FsEvent.appendTrackerKey (trackerFilePath reportsPath storeStatusFile) automatedQueue.key)
        (FsEvent.writeReportFile (reportFilePath reportsPath sanitizeName fmtDate fmtTime
          projectName automatedQueue))
        (by simp) (by simp) n hn
    · exact mem_take_of_mem_front FsEvent
        [FsEvent.writeReportFile (reportFilePath reportsPath sanitizeName fmtDate fmtTime
           projectName automatedQueue)]
        (FsEvent.appendTrackerKey (trackerFilePath reportsPath storeStatusFile) automatedQueue.key)
        (FsEvent.writeReportFile (reportFilePath reportsPath sanitizeName fmtDate fmtTime
          projectName automatedQueue))
        (by simp) (by simp) n hn

/-- C4 (witness): write-before-mark on a concrete trace with the folder
and tracker file already present. -/
theorem saveAutomatedTestList_write_before_mark_witness :
    FsEvent.writeReportFile (reportFilePath "reports" id id id "FIN"
        { key := "1001", executionStartTimeStamp := "t0" }) ∈ c4Events ∧
      FsEvent.appendTrackerKey (trackerFilePath "reports" "fin-tracker.txt") "1001" ∈ c4Events ∧
      (FsEvent.appendTrackerKey (trackerFilePath "reports" "fin-tracker.txt") "1001" ∈
          c4Events.take 2 →
        FsEvent.writeReportFile (reportFilePath "reports" id id id "FIN"
            { key := "1001", executionStartTimeStamp := "t0" }) ∈ c4Events.take 2) := by
  have h := saveAutomatedTestList_write_before_mark "reports" id id id "FIN" "fin-tracker.txt"
    { key := "1001", executionStartTimeStamp := "t0" } true true c4Events rfl
  exact ⟨h.1, h.2.1, h.2.2 2⟩

/-- C5: across two consecutive runs of `searchIssuesByTestNames` (the
second starting from the first run's persisted cache), every name of the
first run is served from the cache without a new Jira query in the second
run, every cache entry of the first run survives with its value into the
second run's cache, and the cache size never decreases. -/
theorem jiraCache_monotone_across_runs
    (search1 search2 : String → Except Unit (List String)) (proj1 proj2 : String)
    (names1 names2 : List String) (cache0 : JiraCache) :
    (∀ n ∈ names1,
        n ∉ (searchIssuesByTestNames search2 proj2 names2
              (searchIssuesByTestNames search1 proj1 names1 cache0).cache).searched) ∧
      (∀ k, cacheHas (searchIssuesByTestNames search1 proj1 names1 cache0).cache k = true →
        cacheGet (searchIssuesByTestNames search2 proj2 names2
              (searchIssuesByTestNames search1 proj1 names1 cache0).cache).cache k =
            cacheGet (searchIssuesByTestNames search1 proj1 names1 cache0).cache k ∧
          cacheHas (searchIssuesByTestNames search2 proj2 names2
              (searchIssuesByTestNames search1 proj1 names1 cache0).cache).cache k = true) ∧
      (searchIssuesByTestNames search1 proj1 names1 cache0).cache.length ≤
        (searchIssuesByTestNames search2 proj2 names2
          (searchIssuesByTestNames search1 proj1 names1 cache0).cache).cache.length := by
  refine ⟨?_, ?_, searchIssuesByTestNames_cache_length _ _ _ _⟩
  · intro n hn
    exact searchIssuesByTestNames_cached_not_searched _ _ _ _ _
      (searchIssuesByTestNames_cache_has_input _ _ _ _ _ hn)
  · intro k hk
    have hpres := searchIssuesByTestNames_cache_preserved search2 proj2 names2 _ k hk
    refine ⟨hpres, ?_⟩
    rw [cacheHas_iff_isSome, hpres]
    exact (cacheHas_iff_isSome _ _).mp hk

/-- C5 (witness): cache monotonicity on two concrete consecutive runs. -/
theorem jiraCache_monotone_across_runs_witness :
    "A" ∉ (searchIssuesByTestNames (fun _ => Except.ok ["K-2"]) "P" ["A", "B"]
        (searchIssuesByTestNames (fun _ => Except.ok ["K-1"]) "P" ["A"] []).cache).searched ∧
      (searchIssuesByTestNames (fun _ => Except.ok ["K-1"]) "P" ["A"] []).cache.length ≤
        (searchIssuesByTestNames (fun _ => Except.ok ["K-2"]) "P" ["A", "B"]
          (searchIssuesByTestNames (fun _ => Except.ok ["K-1"]) "P" ["A"] []).cache).cache.length := by
  have h := jiraCache_monotone_across_runs (fun _ => Except.ok ["K-1"])
    (fun _ => Except.ok ["K-2"]) "P" "P" ["A"] ["A", "B"] []
  exact ⟨h.1 "A" (by decide), h.2.2⟩

/-- C6: for an uncached test name, a Jira query returning at least one
issue caches and returns the first issue's key; a query returning zero
issues caches and returns `null`; and a thrown query caches and returns
`null` — the resolution step always produces a value (the error is
swallowed inside the per-name handler). -/
theorem searchIssuesByTestNames_uncached_case_analysis
    (searchIssues : String → Except Unit (List String)) (jiraProject : String)
    (testNames : List String) (cache : JiraCache) (n : String)
    (hmem : n ∈ testNames) (hmiss : cacheHas cache n = false) :
    (∀ issueKey rest, searchIssues (buildJql jiraProject n) = .ok (issueKey :: rest) →
        cacheGet (searchIssuesByTestNames searchIssues jiraProject testNames cache).results n =
            some (some issueKey) ∧
          cacheGet (searchIssuesByTestNames searchIssues jiraProject testNames cache).cache n =
            some (some issueKey)) ∧
      (searchIssues (buildJql jiraProject n) = .ok [] →
        cacheGet (searchIssuesByTestNames searchIssues jiraProject testNames cache).results n =
            some none ∧
          cacheGet (searchIssuesByTestNames searchIssues jiraProject testNames cache).cache n =
            some none) ∧
      (∀ e, searchIssues (buildJql jiraProject n) = .error e →
        cacheGet (searchIssuesByTestNames searchIssues jiraProject testNames cache).results n =
            some none ∧
          cacheGet (searchIssuesByTestNames searchIssues jiraProject testNames cache).cache n =
            some none) := by
  obtain ⟨hres, hcache⟩ :=
    searchIssuesByTestNames_uncached_value searchIssues jiraProject testNames cache n hmem hmiss
  refine ⟨?_, ?_, ?_⟩
  · intro issueKey rest hs
    constructor
    · rw [hres]; simp [searchResultValue, hs]
    · rw [hcache]; simp [searchResultValue, hs]
  · intro hs
    constructor
    · rw [hres]; simp [searchResultValue, hs]
    · rw [hcache]; simp [searchResultValue, hs]
  · intro e hs
    constructor
    · rw [hres]; simp [searchResultValue, hs]
    · rw [hcache]; simp [searchResultValue, hs]

/-- C6 (witness): the thrown-query case on a concrete run. -/
theorem searchIssuesByTestNames_uncached_case_analysis_witness :
    cacheGet (searchIssuesByTestNames (fun _ => Except.error ()) "P" ["A"] []).results "A" =
        some none ∧
      cacheGet (searchIssuesByTestNames (fun _ => Except.error ()) "P" ["A"] []).cache "A" =
        some none :=
  (searchIssuesByTestNames_uncached_case_analysis (fun _ => Except.error ()) "P" ["A"] [] "A"
    (by decide) (by decide)).2.2 () rfl

/-- C7 (counterexample): a record whose test name resolves (to the
empty-string issue key returned by the search) nevertheless gets a `null`
issue key, because the source coalesces with `|| null` and the empty
string is falsy. -/
theorem enrichTestResultsWithJiraKeys_empty_key_cex :
    cacheGet (searchIssuesByTestNames (fun _ => Except.ok [""]) "PROJ"
        (jsDedup ([c7Record].map (fun test => test.testName))) []).results c7Record.testName =
      some (some "") ∧
    (enrichTestResultsWithJiraKeys (fun _ => Except.ok [""]) "PROJ" [] [c7Record]).1.map
        (fun t => t.cJiraKey) = [some none] := by
  decide

/-- C7 (amended): `enrichTestResultsWithJiraKeys` resolves the distinct
test names of the whole batch (passed and failed alike) and attaches the
resolved issue key to every record whose name resolves to a non-empty
key, regardless of outcome; a record whose name resolves to `null`, to
the empty string, or not at all gets a `null` issue key. -/
theorem enrichTestResultsWithJiraKeys_attachment
    (searchIssues : String → Except Unit (List String)) (jiraProject : String)
    (cache : JiraCache) (records : List TestResult) :
    (∀ t ∈ records, t.testName ∈ jsDedup (records.map (fun test => test.testName))) ∧
      (∀ t ∈ (enrichTestResultsWithJiraKeys searchIssues jiraProject cache records).1,
        ∀ issueKey, issueKey ≠ "" →
          cacheGet (searchIssuesByTestNames searchIssues jiraProject
              (jsDedup (records.map (fun test => test.testName))) cache).results t.testName =
            some (some issueKey) →
          t.cJiraKey = some (some issueKey)) ∧
      (∀ t ∈ (enrichTestResultsWithJiraKeys searchIssues jiraProject cache records).1,
        (cacheGet (searchIssuesByTestNames searchIssues jiraProject
              (jsDedup (records.map (fun test => test.testName))) cache).results t.testName =
              some none ∨
          cacheGet (searchIssuesByTestNames searchIssues jiraProject
              (jsDedup (records.map (fun test => test.testName))) cache).results t.testName =
              none ∨
          cacheGet (searchIssuesByTestNames searchIssues jiraProject
              (jsDedup (records.map (fun test => test.testName))) cache).results t.testName =
              some (some "")) →
          t.cJiraKey = some none) := by
  refine ⟨?_, ?_, ?_⟩
  · intro t ht
    exact (mem_jsDedup _ _).mpr (List.mem_map_of_mem _ ht)
  · intro t ht issueKey hne hget
    simp only [enrichTestResultsWithJiraKeys, List.mem_map] at ht
    obtain ⟨s, hs, rfl⟩ := ht
    dsimp only at hget ⊢
    rw [hget]
    simp [jsOrNull, hne]
  · intro t ht hget
    simp only [enrichTestResultsWithJiraKeys, List.mem_map] at ht
    obtain ⟨s, hs, rfl⟩ := ht
    dsimp only at hget ⊢
    rcases hget with h | h | h <;> rw [h] <;> simp [jsOrNull]

/-- C7 (witness): attachment of a concrete non-empty resolved key. -/
theorem enrichTestResultsWithJiraKeys_attachment_witness :
    c7Record.testName ∈ jsDedup ([c7Record].map (fun test => test.testName)) ∧
      ({ c7Record with cJiraKey := some (some "K-9") } : TestResult).cJiraKey =
        some (some "K-9") := by
  have h := enrichTestResultsWithJiraKeys_attachment (fun _ => Except.ok ["K-9"]) "PROJ" []
    [c7Record]
  exact ⟨h.1 c7Record (by decide), h.2.1 _ (by decide) "K-9" (by decide) (by decide)⟩

/-- C8 (counterexample): an execution with zero records does not yield
duration `"00:00:00"` — the summary's duration is the formatted
queue-level duration argument, here `"01:02:03"`. -/
theorem calculateQueueSummary_empty_duration_cex :
    (calculateQueueSummary (fun s => s) [] "q1" "2025-01-02" "01:02:03.5").totalTests = 0 ∧
      (calculateQueueSummary (fun s => s) [] "q1" "2025-01-02" "01:02:03.5").duration =
        "01:02:03" ∧
      (calculateQueueSummary (fun s => s) [] "q1" "2025-01-02" "01:02:03.5").duration ≠
        "00:00:00" := by
  decide

/-- C8 (amended): for an execution with zero records
`calculateQueueSummary` returns `totalTests 0`, `passed 0`, `failed 0`
and `passedRate "0%"` (the zero-total guard avoids the division), while
the duration field is the formatted queue-level duration argument — which
equals `"00:00:00"` exactly when the queue reports a zero duration. -/
theorem calculateQueueSummary_empty_execution
    (fmtDate : String → String) (queueId executionDate duration : String) :
    (calculateQueueSummary fmtDate [] queueId executionDate duration).totalTests = 0 ∧
      (calculateQueueSummary fmtDate [] queueId executionDate duration).passed = 0 ∧
      (calculateQueueSummary fmtDate [] queueId executionDate duration).failed = 0 ∧
      (calculateQueueSummary fmtDate [] queueId executionDate duration).passedRate = "0%" ∧
      (calculateQueueSummary fmtDate [] queueId executionDate duration).duration =
        formatDuration duration ∧
      formatDuration "00:00:00.0000000" = "00:00:00" := by
  refine ⟨rfl, rfl, rfl, rfl, rfl, by decide⟩

/-- C9: `saveQueueSummary` is idempotent in the execution id — a summary
whose id is already stored leaves the array unchanged — and otherwise
prepends the new summary, preserving every stored entry in order. -/
theorem saveQueueSummary_idempotent_prepend
    (existingSummaries : List QueueSummary) (queueSummary : QueueSummary) :
    ((∃ s ∈ existingSummaries, s.queueId = queueSummary.queueId) →
        saveQueueSummary existingSummaries queueSummary = existingSummaries) ∧
      ((∀ s ∈ existingSummaries, s.queueId ≠ queueSummary.queueId) →
        saveQueueSummary existingSummaries queueSummary =
          queueSummary :: existingSummaries) := by
  unfold saveQueueSummary
  cases hidx : existingSummaries.findIdx? (fun s => s.queueId == queueSummary.queueId) with
  | some i =>
    refine ⟨fun _ => rfl, fun hall => ?_⟩
    have hsome : (existingSummaries.findIdx?
        (fun s => s.queueId == queueSummary.queueId)).isSome = true := by
      rw [hidx]; rfl
    rw [List.findIdx?_isSome, List.any_eq_true] at hsome
    obtain ⟨s, hs, hpred⟩ := hsome
    exact absurd (by simpa using hpred) (hall s hs)
  | none =>
    refine ⟨fun hex => ?_, fun _ => rfl⟩
    obtain ⟨s, hs, heq⟩ := hex
    have hsome : (existingSummaries.findIdx?
        (fun s => s.queueId == queueSummary.queueId)).isSome = true := by
      rw [List.findIdx?_isSome, List.any_eq_true]
      exact ⟨s, hs, by simp [heq]⟩
    rw [hidx] at hsome
    exact absurd hsome (by simp)

/-- C9 (witness): both branches on concrete stored summaries. -/
theorem saveQueueSummary_idempotent_prepend_witness :
    saveQueueSummary [c9Stored] c9Dup = [c9Stored] ∧
      saveQueueSummary [c9Stored] c9New = c9New :: [c9Stored] := by
  constructor
  · exact (saveQueueSummary_idempotent_prepend [c9Stored] c9Dup).1
      ⟨c9Stored, by decide, by decide⟩
  · exact (saveQueueSummary_idempotent_prepend [c9Stored] c9New).2 (by decide)

/-- C10: the map returned by `searchIssuesByTestNames` binds every input
test name — cache hit, search hit, search miss and search error alike. -/
theorem searchIssuesByTestNames_total_resolution
    (searchIssues : String → Except Unit (List String)) (jiraProject : String)
    (testNames : List String) (cache : JiraCache) (n : String) (h : n ∈ testNames) :
    (cacheGet (searchIssuesByTestNames searchIssues jiraProject testNames cache).results
        n).isSome = true :=
  searchIssuesByTestNames_results_total searchIssues jiraProject testNames cache n h

/-- C10 (witness): totality on a concrete run. -/
theorem searchIssuesByTestNames_total_resolution_witness :
    (cacheGet (searchIssuesByTestNames (fun _ => Except.ok ["K-3"]) "P" ["B"] []).results
        "B").isSome = true :=
  searchIssuesByTestNames_total_resolution (fun _ => Except.ok ["K-3"]) "P" ["B"] [] "B"
    (by decide)

end DsDashboard
